import Mathlib

/-!
Verification of the Silkroad Blender importer plugins: a shallow embedding of
the binary decoders (primitive little-endian reads, BMS face and skin-weight
decoding in both dialects, the MFO region bitmask, the MAPM heightfield
assembly and water trailer, orientation detection, the terrain material
cache) together with proofs about them.

Byte buffers are `List Nat` (each element one byte value), a file cursor is a
position into such a buffer.  Real-valued quantities (weights, coordinates)
are modelled exactly over `ℚ`; float32 fields whose numeric value is never
computed with (heights, water plane heights) are carried as their raw 32-bit
little-endian bit patterns.
-/

/-- Python `f.read(n)` at position `pos`: returns up to `n` bytes, fewer when
the buffer ends early, never an error. -/
def fileRead (buf : List Nat) (pos n : Nat) : List Nat :=
  (buf.drop pos).take n

/-- Python `int.from_bytes(bs, "little")`. -/
def fromBytesLE : List Nat → Nat
  | [] => 0
  | b :: rest => b + 256 * fromBytesLE rest

/-- Source `read_int(f)`: `int.from_bytes(f.read(4), "little")`.  Returns the
value and the new cursor position; `int.from_bytes` accepts any length, so a
short read yields the value of the remaining bytes (0 at end of input). -/
def read_int (buf : List Nat) (pos : Nat) : Nat × Nat :=
  let bs := fileRead buf pos 4
  (fromBytesLE bs, pos + bs.length)

/-- Source `read_short(f)`: `int.from_bytes(f.read(2), "little")`. -/
def read_short (buf : List Nat) (pos : Nat) : Nat × Nat :=
  let bs := fileRead buf pos 2
  (fromBytesLE bs, pos + bs.length)

/-- Source `read_byte(f)`: `int.from_bytes(f.read(1), "little")`. -/
def read_byte (buf : List Nat) (pos : Nat) : Nat × Nat :=
  let bs := fileRead buf pos 1
  (fromBytesLE bs, pos + bs.length)

/-- Source `read_float(f)`: `struct.unpack("<f", f.read(4))` raises
`struct.error` unless exactly 4 bytes were read, so the result is an
`Option`; the value is kept as the raw 32-bit pattern. -/
def read_float (buf : List Nat) (pos : Nat) : Option (Nat × Nat) :=
  let bs := fileRead buf pos 4
  if bs.length = 4 then some (fromBytesLE bs, pos + 4) else none

/-- Source `read_str(f)`: a `read_int` length prefix, then that many bytes
(the decoded text is modelled as the raw byte list).  A length of 0 yields
the empty string; a short read of the payload yields the bytes that were
available, without any error. -/
def read_str (buf : List Nat) (pos : Nat) : List Nat × Nat :=
  let lp := read_int buf pos
  if lp.1 = 0 then ([], lp.2)
  else
    let bs := fileRead buf lp.2 lp.1
    (bs, lp.2 + bs.length)

/-- Offset-table dialect skin weights
(`[UPDATE]bms_bsk_bmt_ddj_import_only_final_HU.py`, lines 246-249): the raw
pair is divided by its sum, with the divisor replaced by `1.0` when both
weights are zero. -/
def normalizeSkinWeights (bi1 w1 bi2 w2 : Nat) : Nat × ℚ × Nat × ℚ :=
  let total : ℚ := if 0 < w1 + w2 then ((w1 + w2 : Nat) : ℚ) else 1
  (bi1, (w1 : ℚ) / total, bi2, (w2 : ℚ) / total)

/-- Legacy dialect vertex-group assignment
(`bms_bmt_ddj_import_only_final_HU.py`, lines 142-145): each raw weight is
applied as `weight / 10000.0`, guarded by `weight > 0` and a bone-index
bound; no pair-sum division takes place. -/
def legacyVertexGroupAssignments (nbones bi1 w1 bi2 w2 : Nat) : List (Nat × ℚ) :=
  (if 0 < w1 ∧ bi1 < nbones then [(bi1, (w1 : ℚ) / 10000)] else []) ++
  (if 0 < w2 ∧ bi2 < nbones then [(bi2, (w2 : ℚ) / 10000)] else [])

/-- SROBJ import vertex conversion (`SROBJ_import_export_final_HU.py`,
lines 52-57): a file triple, read in the order `(x, z, y)`, becomes the
scene triple `(x, -y, z)`. -/
def import_srobj_vertex (p : ℚ × ℚ × ℚ) : ℚ × ℚ × ℚ :=
  (p.1, -p.2.2, p.2.1)

/-- SROBJ export vertex conversion (`SROBJ_import_export_final_HU.py`,
lines 249-251): the scene triple `(X, Y, Z)` is written as the file triple
`(X, Z, -Y)`. -/
def export_srobj_vertex (q : ℚ × ℚ × ℚ) : ℚ × ℚ × ℚ :=
  (q.1, q.2.2, -q.2.1)

/-- BMS face decode, offset-table dialect
(`[UPDATE]bms_bsk_bmt_ddj_import_only_final_HU.py`, line 237): each face is
three consecutive `read_short` values, emitted in reversed order. -/
def parseFacesUpdate (buf : List Nat) : Nat → Nat → List (Nat × Nat × Nat)
  | _, 0 => []
  | pos, Nat.succ n =>
    let r1 := read_short buf pos
    let r2 := read_short buf r1.2
    let r3 := read_short buf r2.2
    (r3.1, r2.1, r1.1) :: parseFacesUpdate buf r3.2 n

/-- BMS face decode, legacy fixed dialect
(`bms_bmt_ddj_import_only_final_HU.py`, line 118): each face is three
consecutive `read_short` values, emitted in on-disk order. -/
def parseFacesLegacy (buf : List Nat) : Nat → Nat → List (Nat × Nat × Nat)
  | _, 0 => []
  | pos, Nat.succ n =>
    let r1 := read_short buf pos
    let r2 := read_short buf r1.2
    let r3 := read_short buf r2.2
    (r1.1, r2.1, r3.1) :: parseFacesLegacy buf r3.2 n

/-- Value of the little-endian uint16 at byte position `p`. -/
def shortAt (buf : List Nat) (p : Nat) : Nat :=
  (read_short buf p).1

/-- MFO bit-to-coordinate mapping (`sro_map_height_done.py`, lines 54-58 and
`sro_map_texture_lightmap_vertex.py`, lines 60-64):
`x = idx & 0xFF`, `zRaw = (idx >> 8) & 0xFF`, `z = zRaw & 0x7F`,
`dataBit = 1` iff `zRaw >= 128`. -/
def regionOfIdx (idx : Nat) : Nat × Nat × Nat :=
  let x := idx &&& 0xFF
  let zr := (idx >>> 8) &&& 0xFF
  (x, zr &&& 0x7F, if 128 ≤ zr then 1 else 0)

/-- Active regions contributed by byte `bv` at byte index `bi` of the MFO
bitmask: one region per set bit, lowest bit first. -/
def bitRegions (bi bv : Nat) : List (Nat × Nat × Nat) :=
  (List.range 8).filterMap (fun k =>
    if (bv >>> k) &&& 1 = 1 then some (regionOfIdx (bi * 8 + k)) else none)

/-- The byte loop of `parse_mfo`, carrying the running byte index; a byte
equal to 0 is skipped by `continue`. -/
def parse_mfo_regionsAux : Nat → List Nat → List (Nat × Nat × Nat)
  | _, [] => []
  | bi, bv :: rest =>
    (if bv = 0 then [] else bitRegions bi bv) ++ parse_mfo_regionsAux (bi + 1) rest

/-- Source `parse_mfo` region extraction over the 8192-byte bitmask. -/
def parse_mfo_regions (bitmask : List Nat) : List (Nat × Nat × Nat) :=
  parse_mfo_regionsAux 0 bitmask

/-- Number of set bits among the low 8 bits of a byte. -/
def popBits (bv : Nat) : Nat :=
  ((List.range 8).filter (fun k => (bv >>> k) &&& 1 = 1)).length

/-- Region-grid orientation mode. -/
inductive Orient where
  | XZ
  | ZX
  deriving DecidableEq

/-- The bounded sample of `detect_orient` (`sro_map_height_done.py` line 98,
`sro_map_texture_lightmap_vertex.py` line 78): the first 64 active regions
when more than 64 exist, else all of them. -/
def orientSample (regs : List (Nat × Nat × Nat)) : List (Nat × Nat × Nat) :=
  if regs.length > 64 then regs.take 64 else regs

/-- Hit count for the `(x, z)` path convention, where `fileIsFile a b` states
whether a terrain `.m` file resolves for directory/file pair `(a, b)`. -/
def hitsXZ (fileIsFile : Nat → Nat → Bool) (regs : List (Nat × Nat × Nat)) : Nat :=
  ((orientSample regs).filter (fun r => fileIsFile r.1 r.2.1)).length

/-- Hit count for the swapped `(z, x)` path convention. -/
def hitsZX (fileIsFile : Nat → Nat → Bool) (regs : List (Nat × Nat × Nat)) : Nat :=
  ((orientSample regs).filter (fun r => fileIsFile r.2.1 r.1)).length

/-- Source `detect_orientation` / `detect_orient`: `"XZ" if hits_xz >=
hits_zx else "ZX"`. -/
def detect_orient (fileIsFile : Nat → Nat → Bool)
    (regs : List (Nat × Nat × Nat)) : Orient :=
  if hitsZX fileIsFile regs ≤ hitsXZ fileIsFile regs then Orient.XZ else Orient.ZX

/-- Association-list lookup by key (Python `key in dict` plus indexing). -/
def alookup {α β : Type} [DecidableEq α] (k : α) : List (α × β) → Option β
  | [] => none
  | e :: rest => if e.1 = k then some e.2 else alookup k rest

/-- The mutable state touched by `get_pair_material`: the `MATERIAL_CACHE`
dict keyed by `(min a b, max a b, lightmap name, vbright)`, the
`bpy.data.materials` name table keyed by `(a, b, has-lightmap, vbright)`
(the generated `MAT_a_b[_LM][_VB]` name records only whether a lightmap is
attached, not which one), and a counter supplying fresh material objects. -/
structure MatState where
  cache : List ((Nat × Nat × Option Nat × Bool) × Nat)
  db : List ((Nat × Nat × Bool × Bool) × Nat)
  fresh : Nat
  deriving DecidableEq

/-- Source `get_pair_material` (`sro_map_texture_lightmap_vertex.py`, lines
377-449).  `baseOk a` abstracts whether `TERRAIN_DDJ[a]` exists and its
image loads; material objects are numbers drawn from the fresh counter.
A cache hit returns the cached material unchanged; otherwise, on a loadable
base texture, an existing material of the same name is adopted into the
cache or a fresh one is created and recorded in both tables.  A failed base
load returns `none` and caches nothing. -/
def get_pair_material (baseOk : Nat → Bool) (lm : Option Nat) (vb : Bool)
    (base layer : Nat) (st : MatState) : Option Nat × MatState :=
  let a := min base layer
  let b := max base layer
  let key := (a, b, lm, vb)
  match alookup key st.cache with
  | some m => (some m, st)
  | none =>
    if baseOk a then
      let name := (a, b, lm.isSome, vb)
      match alookup name st.db with
      | some m => (some m, ⟨(key, m) :: st.cache, st.db, st.fresh⟩)
      | none =>
        (some st.fresh,
          ⟨(key, st.fresh) :: st.cache, (name, st.fresh) :: st.db, st.fresh + 1⟩)
    else (none, st)

/-- Number of height samples per axis of the assembled grid (97). -/
def VERTS_PER_AXIS : Nat := 97

/-- The assignment `H[gz][gx] = h` on the grid, modelled as a function
update. -/
def gridUpdate (g : Nat → Nat → Int) (uz ux : Nat) (v : Int) : Nat → Nat → Int :=
  fun z x => if z = uz ∧ x = ux then v else g z x

/-- One sample write of the MAPM assembly loop (`sro_map_height_done.py`
lines 121-125, `sro_map_texture_lightmap_vertex.py` lines 129-137):
`gx = xb*16 + vx`, `gz = zb*16 + vz`, written only when both fall inside
the 97×97 grid.  `s zb xb vz vx` abstracts the float32 height sample
decoded for block `(zb, xb)` at local position `(vz, vx)`. -/
def writeSample (s : Nat → Nat → Nat → Nat → Int) (zb xb vz vx : Nat)
    (g : Nat → Nat → Int) : Nat → Nat → Int :=
  if xb * 16 + vx < VERTS_PER_AXIS ∧ zb * 16 + vz < VERTS_PER_AXIS then
    gridUpdate g (zb * 16 + vz) (xb * 16 + vx) (s zb xb vz vx)
  else g

/-- The inner `for vx in range(17)` loop. -/
def writeRow (s : Nat → Nat → Nat → Nat → Int) (zb xb vz : Nat)
    (g : Nat → Nat → Int) : Nat → Nat → Int :=
  (List.range 17).foldl (fun g vx => writeSample s zb xb vz vx g) g

/-- The `for vz in range(17)` loop: one 17×17 sub-block. -/
def writeBlock (s : Nat → Nat → Nat → Nat → Int) (zb xb : Nat)
    (g : Nat → Nat → Int) : Nat → Nat → Int :=
  (List.range 17).foldl (fun g vz => writeRow s zb xb vz g) g

/-- The `for xb in range(6)` loop: one row of sub-blocks. -/
def writeBlockRow (s : Nat → Nat → Nat → Nat → Int) (zb : Nat)
    (g : Nat → Nat → Int) : Nat → Nat → Int :=
  (List.range 6).foldl (fun g xb => writeBlock s zb xb g) g

/-- The full `for zb in range(6)` assembly of the 97×97 grid, starting from
the all-zero grid. -/
def read_mapm_grid (s : Nat → Nat → Nat → Nat → Int) : Nat → Nat → Int :=
  (List.range 6).foldl (fun g zb => writeBlockRow s zb g) (fun _ _ => 0)

/-- Concrete sample stream for the heightfield witness: the sample value
encodes the global cell it belongs to, so overlapping boundary samples
agree. -/
def sampleWit : Nat → Nat → Nat → Nat → Int :=
  fun zb xb vz vx => ((16 * zb + vz) * 256 + 16 * xb + vx : Nat)

/-- Signed interpretation of a byte, as in `struct.unpack("<b", ...)`. -/
def int8OfByte (b : Nat) : Int :=
  if b < 128 then (b : Int) else (b : Int) - 256

/-- The sub-block trailer of `read_mapm_data`
(`sro_map_texture_lightmap_vertex.py`, lines 138-140): immediately after
the 17×17 samples the code unpacks `"<bBf"` from `f.read(1 + 1 + 4)`
(water-type int8, wave-variant uint8, water-plane-height float32, kept
here as its raw bit pattern), then skips the 16×16 secondary table
(`16*16*2` bytes) and `4 + 4 + 20` further unused bytes.  `struct.unpack`
raises on a short read of its 6 bytes; the two plain skip reads do not. -/
def parseBlockTrailer (buf : List Nat) (pos : Nat) :
    Option ((Int × Nat × Nat) × Nat) :=
  let bs := fileRead buf pos 6
  if bs.length = 6 then
    let p1 := pos + 6
    let s1 := fileRead buf p1 512
    let p2 := p1 + s1.length
    let s2 := fileRead buf p2 28
    some ((int8OfByte (bs.getD 0 0), bs.getD 1 0, fromBytesLE (bs.drop 2)),
      p2 + s2.length)
  else none

/-- The conditional `if wtype >= 0: W.append((xb, zb, wheight, wtype,
wwave))` (`sro_map_texture_lightmap_vertex.py`, lines 141-142). -/
def blockWaterRecords (xb zb : Nat) (wtype : Int) (wwave wheightBits : Nat) :
    List (Nat × Nat × Nat × Int × Nat) :=
  if 0 ≤ wtype then [(xb, zb, wheightBits, wtype, wwave)] else []

/-- Water descriptors recorded for one sub-block's trailer under the
code's parse order. -/
def blockWaterOfTrailer (xb zb : Nat) (buf : List Nat) (pos : Nat) :
    Option (List (Nat × Nat × Nat × Int × Nat)) :=
  match parseBlockTrailer buf pos with
  | some ((wt, wv, wh), _) => some (blockWaterRecords xb zb wt wv wh)
  | none => none

/-- Modelled from the claim's wording, for comparison with the code: a
trailer parse that FIRST skips the unused per-block flags (2 bytes) and the
16×16 secondary unused table (512 bytes) and THEN reads the water
descriptor, followed by the remaining 26 skipped bytes. -/
def parseBlockTrailerClaimOrder (buf : List Nat) (pos : Nat) :
    Option ((Int × Nat × Nat) × Nat) :=
  let p1 := pos + 2 + 512
  let bs := fileRead buf p1 6
  if bs.length = 6 then
    let p2 := p1 + 6
    let s2 := fileRead buf p2 26
    some ((int8OfByte (bs.getD 0 0), bs.getD 1 0, fromBytesLE (bs.drop 2)),
      p2 + s2.length)
  else none

/-- Water descriptors recorded for one sub-block's trailer under the
claim's skip-first parse order. -/
def blockWaterClaimOrder (xb zb : Nat) (buf : List Nat) (pos : Nat) :
    Option (List (Nat × Nat × Nat × Int × Nat)) :=
  match parseBlockTrailerClaimOrder buf pos with
  | some ((wt, wv, wh), _) => some (blockWaterRecords xb zb wt wv wh)
  | none => none

/-- Concrete 546-byte sub-block trailer: water-type 3 and wave-variant 1 in
the first two bytes, a zero height, then 540 bytes of `0xFF`. -/
def waterTrailerBytes : List Nat :=
  3 :: 1 :: 0 :: 0 :: 0 :: 0 :: List.replicate 540 255

/-- Claim C1 counterexample: at end of input, `read_int`, `read_short` and
`read_byte` return the silently defaulted value 0 (from
`int.from_bytes(b"", "little")`) without signalling any error, and
`read_str` with a length prefix promising 7 bytes but none available returns
the empty string; the claimed fatal truncated-input error does not occur for
these primitives. -/
theorem read_int_empty_returns_zero :
    read_int [] 0 = (0, 0) ∧ read_short [] 0 = (0, 0) ∧
    read_byte [] 0 = (0, 0) ∧ read_str [7] 0 = ([], 1) := by
  decide

/-- Claim C1 (amended): only `readFloat32LE` (`struct.unpack`) signals a
fatal truncated-input error when fewer than 4 bytes remain; the integer
primitives return the little-endian value of however many bytes remain — 0
at end of input — and advance past them without signalling. -/
theorem truncated_input_behavior (buf : List Nat) (pos : Nat) :
    ((buf.drop pos).length < 4 → read_float buf pos = none) ∧
    (buf.length ≤ pos →
      read_int buf pos = (0, pos) ∧ read_short buf pos = (0, pos) ∧
      read_byte buf pos = (0, pos)) := by
  constructor
  · intro h
    have hlen : (fileRead buf pos 4).length ≠ 4 := by
      simp only [fileRead, List.length_take]
      omega
    simp [read_float, hlen]
  · intro h
    have hnil : buf.drop pos = [] := List.drop_eq_nil_of_le h
    simp [read_int, read_short, read_byte, fileRead, hnil, fromBytesLE]

/-- Witness for `truncated_input_behavior` at the concrete buffer `[5]`,
position 1. -/
theorem truncated_input_behavior_witness :
    read_float [5] 1 = none ∧ read_int [5] 1 = (0, 1) := by
  have h := truncated_input_behavior [5] 1
  exact ⟨h.1 (by decide), (h.2 (by decide)).1⟩

/-- Claim C2: offset-table dialect skin-weight normalization divides each
weight of a pair by the pair sum, so the normalized components sum exactly
to 1 whenever the raw sum is positive; the example pair
`(boneIndex1 = 2, weight1 = 300, boneIndex2 = 5, weight2 = 700)` normalizes
to `(2, 3/10, 5, 7/10)`; a zero/zero pair divides by the substituted 1 and
yields a zero-weight pair without any division error. -/
theorem skin_weight_normalization (bi1 w1 bi2 w2 : Nat) :
    (0 < w1 + w2 →
      (normalizeSkinWeights bi1 w1 bi2 w2).2.1 +
        (normalizeSkinWeights bi1 w1 bi2 w2).2.2.2 = 1) ∧
    normalizeSkinWeights 2 300 5 700 = (2, 3/10, 5, 7/10) ∧
    normalizeSkinWeights bi1 0 bi2 0 = (bi1, 0, bi2, 0) := by
  refine ⟨?_, ?_, ?_⟩
  · intro h
    have hne : ((w1 : ℚ) + (w2 : ℚ)) ≠ 0 := by
      have hc : ((w1 + w2 : Nat) : ℚ) ≠ 0 := Nat.cast_ne_zero.mpr (by omega)
      push_cast at hc
      exact hc
    simp only [normalizeSkinWeights, if_pos h]
    push_cast
    rw [div_add_div_same, div_self hne]
  · norm_num [normalizeSkinWeights]
  · simp [normalizeSkinWeights]

/-- Witness for `skin_weight_normalization` at the example input. -/
theorem skin_weight_normalization_witness :
    (normalizeSkinWeights 2 300 5 700).2.1 +
      (normalizeSkinWeights 2 300 5 700).2.2.2 = 1 :=
  (skin_weight_normalization 2 300 5 700).1 (by decide)

/-- Claim C3: in the legacy dialect every vertex-group weight actually
assigned is a raw weight scaled by the fixed divisor 10000, and no pair-sum
ratio step is applied — on the example pair `(300, 700)` the assigned
weights are `300/10000` and `700/10000`, which do not sum to 1. -/
theorem legacy_weight_fixed_divisor (nbones bi1 w1 bi2 w2 : Nat) :
    (∀ g ∈ legacyVertexGroupAssignments nbones bi1 w1 bi2 w2,
      g.2 = (w1 : ℚ) / 10000 ∨ g.2 = (w2 : ℚ) / 10000) ∧
    legacyVertexGroupAssignments 10 2 300 5 700 =
      [(2, 300 / 10000), (5, 700 / 10000)] ∧
    (300 : ℚ) / 10000 + 700 / 10000 ≠ 1 := by
  refine ⟨?_, by norm_num [legacyVertexGroupAssignments], by norm_num⟩
  intro g hg
  simp only [legacyVertexGroupAssignments, List.mem_append] at hg
  rcases hg with hg | hg <;> split at hg <;>
    simp only [List.mem_singleton, List.not_mem_nil] at hg <;>
    first
      | exact absurd hg (by simp)
      | (subst hg; simp)

/-- Witness for `legacy_weight_fixed_divisor` at the example input. -/
theorem legacy_weight_fixed_divisor_witness :
    ((2 : Nat), (300 : ℚ) / 10000).2 = (300 : ℚ) / 10000 ∨
      ((2 : Nat), (300 : ℚ) / 10000).2 = (700 : ℚ) / 10000 :=
  (legacy_weight_fixed_divisor 10 2 300 5 700).1 (2, (300 : ℚ) / 10000)
    (by norm_num [legacyVertexGroupAssignments])

/-- Claim C10: the SROBJ import conversion from file axes to scene axes
composed with the export conversion back to file axes is the identity on
every coordinate triple. -/
theorem srobj_roundtrip_identity (p : ℚ × ℚ × ℚ) :
    export_srobj_vertex (import_srobj_vertex p) = p := by
  obtain ⟨a, b, c⟩ := p
  simp [import_srobj_vertex, export_srobj_vertex]

theorem read_short_advance (buf : List Nat) (p : Nat) (h : p + 2 ≤ buf.length) :
    read_short buf p = (shortAt buf p, p + 2) := by
  have h2 : (fileRead buf p 2).length = 2 := by
    simp only [fileRead, List.length_take, List.length_drop]
    omega
  simp [read_short, shortAt, h2]

/-- Claim C4 counterexample: the legacy dialect decodes the on-disk index
bytes `01 00 02 00 03 00` to the face `(1, 2, 3)`, which is the on-disk
order, not the reversed order `(3, 2, 1)` the claim asserts for both
dialects. -/
theorem legacy_faces_not_reversed :
    parseFacesLegacy [1, 0, 2, 0, 3, 0] 0 1 = [(1, 2, 3)] ∧
    ((1, 2, 3) : Nat × Nat × Nat) ≠ (3, 2, 1) := by
  decide

/-- Claim C4 (amended): per face both dialects read three consecutive
uint16 indices; the offset-table dialect emits them in reversed order
relative to their on-disk order, while the legacy fixed dialect emits them
in on-disk order (no reversal). -/
theorem face_order_by_dialect (buf : List Nat) (i : Nat) : ∀ n pos,
    pos + 6 * (i + 1) ≤ buf.length → i < n →
    (parseFacesLegacy buf pos n).getD i (0, 0, 0) =
      (shortAt buf (pos + 6 * i), shortAt buf (pos + 6 * i + 2),
        shortAt buf (pos + 6 * i + 4)) ∧
    (parseFacesUpdate buf pos n).getD i (0, 0, 0) =
      (shortAt buf (pos + 6 * i + 4), shortAt buf (pos + 6 * i + 2),
        shortAt buf (pos + 6 * i)) := by
  induction i with
  | zero =>
    intro n pos hlen hi
    cases n with
    | zero => omega
    | succ m =>
      rw [parseFacesLegacy, parseFacesUpdate]
      rw [read_short_advance buf pos (by omega)]
      rw [read_short_advance buf (pos + 2) (by omega)]
      rw [read_short_advance buf (pos + 2 + 2) (by omega)]
      simp only [List.getD_cons_zero]
      have e0 : pos + 6 * 0 = pos := by ring
      have e2 : pos + 6 * 0 + 2 = pos + 2 := by omega
      have e4 : pos + 6 * 0 + 4 = pos + 2 + 2 := by omega
      rw [e0, e2, e4]
      exact ⟨rfl, rfl⟩
  | succ j ih =>
    intro n pos hlen hi
    cases n with
    | zero => omega
    | succ m =>
      rw [parseFacesLegacy, parseFacesUpdate]
      rw [read_short_advance buf pos (by omega)]
      rw [read_short_advance buf (pos + 2) (by omega)]
      rw [read_short_advance buf (pos + 2 + 2) (by omega)]
      simp only [List.getD_cons_succ]
      have hrec := ih m (pos + 2 + 2 + 2) (by omega) (by omega)
      have e1 : pos + 2 + 2 + 2 + 6 * j = pos + 6 * (j + 1) := by ring
      rw [e1] at hrec
      exact hrec

/-- Witness for `face_order_by_dialect`: two faces decoded at index 1 of a
concrete 12-byte buffer. -/
theorem face_order_by_dialect_witness :
    (parseFacesLegacy [1, 0, 2, 0, 3, 0, 4, 0, 5, 0, 6, 0] 0 2).getD 1 (0, 0, 0) =
      (shortAt [1, 0, 2, 0, 3, 0, 4, 0, 5, 0, 6, 0] 6,
        shortAt [1, 0, 2, 0, 3, 0, 4, 0, 5, 0, 6, 0] 8,
        shortAt [1, 0, 2, 0, 3, 0, 4, 0, 5, 0, 6, 0] 10) ∧
    (parseFacesUpdate [1, 0, 2, 0, 3, 0, 4, 0, 5, 0, 6, 0] 0 2).getD 1 (0, 0, 0) =
      (shortAt [1, 0, 2, 0, 3, 0, 4, 0, 5, 0, 6, 0] 10,
        shortAt [1, 0, 2, 0, 3, 0, 4, 0, 5, 0, 6, 0] 8,
        shortAt [1, 0, 2, 0, 3, 0, 4, 0, 5, 0, 6, 0] 6) :=
  face_order_by_dialect [1, 0, 2, 0, 3, 0, 4, 0, 5, 0, 6, 0] 1 2 0
    (by decide) (by decide)

theorem bitRegions_zero (bi : Nat) : bitRegions bi 0 = [] := rfl

theorem if_zero_bitRegions (bi bv : Nat) :
    (if bv = 0 then [] else bitRegions bi bv) = bitRegions bi bv := by
  split
  · next h => rw [h, bitRegions_zero]
  · rfl

theorem mem_bitRegions (bi bv : Nat) (r : Nat × Nat × Nat) :
    r ∈ bitRegions bi bv ↔
      ∃ k, k < 8 ∧ (bv >>> k) &&& 1 = 1 ∧ r = regionOfIdx (bi * 8 + k) := by
  simp only [bitRegions, List.mem_filterMap, List.mem_range]
  constructor
  · rintro ⟨k, hk, hsome⟩
    split at hsome
    · next hc => exact ⟨k, hk, hc, (Option.some_inj.mp hsome).symm⟩
    · exact absurd hsome (by simp)
  · rintro ⟨k, hk, hc, hr⟩
    exact ⟨k, hk, by rw [if_pos hc, hr]⟩

theorem mem_parse_mfo_regionsAux (B : List Nat) : ∀ bi r,
    r ∈ parse_mfo_regionsAux bi B ↔
      ∃ i k, i < B.length ∧ k < 8 ∧ (B.getD i 0 >>> k) &&& 1 = 1 ∧
        r = regionOfIdx ((bi + i) * 8 + k) := by
  induction B with
  | nil => simp [parse_mfo_regionsAux]
  | cons bv rest ih =>
    intro bi r
    rw [parse_mfo_regionsAux, if_zero_bitRegions, List.mem_append,
      mem_bitRegions, ih (bi + 1)]
    constructor
    · rintro (⟨k, hk, hbit, hr⟩ | ⟨i, k, hi, hk, hbit, hr⟩)
      · exact ⟨0, k, by simp, hk, by simpa using hbit, by simpa using hr⟩
      · refine ⟨i + 1, k, by simpa using hi, hk, by simpa using hbit, ?_⟩
        rw [hr]
        congr 2
        omega
    · rintro ⟨i, k, hi, hk, hbit, hr⟩
      cases i with
      | zero =>
        left
        exact ⟨k, hk, by simpa using hbit, by simpa using hr⟩
      | succ j =>
        right
        refine ⟨j, k, by simpa using hi, hk, by simpa using hbit, ?_⟩
        rw [hr]
        congr 2
        omega

theorem length_filterMap_ite {α β : Type} (p : α → Prop) [DecidablePred p]
    (g : α → β) (l : List α) :
    (l.filterMap (fun a => if p a then some (g a) else none)).length =
      (l.filter (fun a => decide (p a))).length := by
  induction l with
  | nil => rfl
  | cons a t ih =>
    by_cases h : p a <;> simp [List.filterMap_cons, h, ih]

theorem length_bitRegions (bi bv : Nat) :
    (bitRegions bi bv).length = popBits bv :=
  length_filterMap_ite (fun k => (bv >>> k) &&& 1 = 1)
    (fun k => regionOfIdx (bi * 8 + k)) (List.range 8)

theorem length_parse_mfo_regionsAux (B : List Nat) : ∀ bi,
    (parse_mfo_regionsAux bi B).length = (B.map popBits).sum := by
  induction B with
  | nil => intro bi; rfl
  | cons bv rest ih =>
    intro bi
    rw [parse_mfo_regionsAux, if_zero_bitRegions, List.length_append,
      length_bitRegions, ih (bi + 1), List.map_cons, List.sum_cons]

set_option maxRecDepth 100000 in
/-- Claim C5: each MFO region bitmask decodes to one active region per set
bit, with coordinates given by `idx = byteIndex*8 + bitIndexWithinByte`,
`x = idx &&& 0xFF`, `z = ((idx >>> 8) &&& 0xFF) &&& 0x7F` and dataBit 1 iff
`(idx >>> 8) &&& 0xFF ≥ 128`; and the bitmask whose only set bit is bit 0
of byte 0 decodes to the single region `(0, 0, 0)`. -/
theorem mfo_bit_to_region :
    (∀ B : List Nat, ∀ r, r ∈ parse_mfo_regions B ↔
      ∃ i k, i < B.length ∧ k < 8 ∧ (B.getD i 0 >>> k) &&& 1 = 1 ∧
        r = regionOfIdx (i * 8 + k)) ∧
    (∀ B : List Nat, (parse_mfo_regions B).length = (B.map popBits).sum) ∧
    parse_mfo_regions (1 :: List.replicate 1023 0) = [(0, 0, 0)] := by
  refine ⟨?_, ?_, ?_⟩
  · intro B r
    rw [parse_mfo_regions, mem_parse_mfo_regionsAux]
    simp only [Nat.zero_add]
  · intro B
    rw [parse_mfo_regions, length_parse_mfo_regionsAux]
  · decide

/-- Claim C8: when a terrain file exists under the `(x, z)` convention for
every sampled active region, orientation detection returns the XZ mode; and
a hit-count tie also resolves to XZ (the comparison is `hits_xz >=
hits_zx`). -/
theorem orientation_detection_xz (fe : Nat → Nat → Bool)
    (regs : List (Nat × Nat × Nat)) :
    ((∀ r ∈ orientSample regs, fe r.1 r.2.1 = true) →
      detect_orient fe regs = Orient.XZ) ∧
    (hitsXZ fe regs = hitsZX fe regs → detect_orient fe regs = Orient.XZ) := by
  constructor
  · intro h
    have hx : hitsXZ fe regs = (orientSample regs).length := by
      unfold hitsXZ
      rw [List.filter_eq_self.mpr h]
    have hz : hitsZX fe regs ≤ (orientSample regs).length :=
      List.length_filter_le _ _
    unfold detect_orient
    rw [if_pos (by omega)]
  · intro h
    unfold detect_orient
    rw [if_pos (le_of_eq h.symm)]

/-- Witness for `orientation_detection_xz` on a one-region dataset whose
files all exist under the `(x, z)` convention. -/
theorem orientation_detection_xz_witness :
    detect_orient (fun _ _ => true) [(1, 2, 0)] = Orient.XZ :=
  (orientation_detection_xz (fun _ _ => true) [(1, 2, 0)]).1
    (by intro r _; rfl)

/-- Claim C9: a successful `get_pair_material` call leaves the material in
the cache under the unordered-pair key, so a repeated call with the same
unordered texture-id pair (in either argument order) and the same
lightmap/vertex-brightness state returns the identical cached material
object and leaves the state unchanged — no duplicate is constructed. -/
theorem pair_material_cache_idempotent (baseOk : Nat → Bool) (lm : Option Nat)
    (vb : Bool) (base layer m : Nat) (st st1 : MatState)
    (h : get_pair_material baseOk lm vb base layer st = (some m, st1)) :
    get_pair_material baseOk lm vb base layer st1 = (some m, st1) ∧
    get_pair_material baseOk lm vb layer base st1 = (some m, st1) := by
  have hkey : alookup (min base layer, max base layer, lm, vb) st1.cache = some m := by
    simp only [get_pair_material] at h
    split at h
    · next m0 hc =>
      obtain ⟨hm, hst⟩ := Prod.mk.injEq .. ▸ h
      obtain rfl := Option.some_inj.mp hm
      rw [← hst]
      exact hc
    · next hc =>
      split at h
      · split at h
        · next m0 hd =>
          obtain ⟨hm, hst⟩ := Prod.mk.injEq .. ▸ h
          obtain rfl := Option.some_inj.mp hm
          rw [← hst]
          simp [alookup]
        · obtain ⟨hm, hst⟩ := Prod.mk.injEq .. ▸ h
          obtain rfl := Option.some_inj.mp hm
          rw [← hst]
          simp [alookup]
      · exact absurd (congrArg Prod.fst h) (by simp)
  constructor
  · simp only [get_pair_material, hkey]
  · simp only [get_pair_material, Nat.min_comm layer base, Nat.max_comm layer base,
      hkey]

/-- Witness for `pair_material_cache_idempotent`: a concrete first call on
the empty state creates material 0; the repeat call returns it unchanged. -/
theorem pair_material_cache_idempotent_witness :
    get_pair_material (fun _ => true) none false 2 7
        ⟨[((2, 7, none, false), 0)], [((2, 7, false, false), 0)], 1⟩ =
      (some 0, ⟨[((2, 7, none, false), 0)], [((2, 7, false, false), 0)], 1⟩) :=
  (pair_material_cache_idempotent (fun _ => true) none false 2 7 0
    ⟨[], [], 0⟩
    ⟨[((2, 7, none, false), 0)], [((2, 7, false, false), 0)], 1⟩
    (by decide)).1

theorem foldl_range_succ {α : Type} (f : α → Nat → α) (a : α) (n : Nat) :
    (List.range (n + 1)).foldl f a = f ((List.range n).foldl f a) n := by
  rw [List.range_succ, List.foldl_append, List.foldl_cons, List.foldl_nil]

theorem writeSample_apply (s : Nat → Nat → Nat → Nat → Int) (zb xb vz vx : Nat)
    (g : Nat → Nat → Int) (z x : Nat) :
    writeSample s zb xb vz vx g z x =
      if xb * 16 + vx < VERTS_PER_AXIS ∧ zb * 16 + vz < VERTS_PER_AXIS then
        if z = zb * 16 + vz ∧ x = xb * 16 + vx then s zb xb vz vx else g z x
      else g z x := by
  unfold writeSample
  by_cases h : xb * 16 + vx < VERTS_PER_AXIS ∧ zb * 16 + vz < VERTS_PER_AXIS
  · rw [if_pos h, if_pos h]
    rfl
  · rw [if_neg h, if_neg h]

theorem writeRow_foldl_eff (s : Nat → Nat → Nat → Nat → Int) (zb xb vz : Nat) :
    ∀ (n : Nat) (g : Nat → Nat → Int) (z x : Nat),
    ((List.range n).foldl (fun g vx => writeSample s zb xb vz vx g) g) z x =
      if z = zb * 16 + vz ∧ z < 97 ∧ x < 97 ∧ xb * 16 ≤ x ∧ x < xb * 16 + n
      then s zb xb vz (x - xb * 16) else g z x := by
  intro n
  induction n with
  | zero =>
    intro g z x
    rw [List.range_zero, List.foldl_nil, if_neg (by omega)]
  | succ n ih =>
    intro g z x
    rw [foldl_range_succ]
    show writeSample s zb xb vz n
      ((List.range n).foldl (fun g vx => writeSample s zb xb vz vx g) g) z x = _
    rw [writeSample_apply]
    simp only [VERTS_PER_AXIS]
    by_cases hb : xb * 16 + n < 97 ∧ zb * 16 + vz < 97
    · rw [if_pos hb]
      by_cases hzx : z = zb * 16 + vz ∧ x = xb * 16 + n
      · rw [if_pos hzx, if_pos (by omega)]
        have hx : x - xb * 16 = n := by omega
        rw [hx]
      · rw [if_neg hzx, ih g z x]
        by_cases hc : z = zb * 16 + vz ∧ z < 97 ∧ x < 97 ∧ xb * 16 ≤ x ∧
            x < xb * 16 + n
        · rw [if_pos hc, if_pos (by omega)]
        · rw [if_neg hc, if_neg (by omega)]
    · rw [if_neg hb, ih g z x]
      by_cases hc : z = zb * 16 + vz ∧ z < 97 ∧ x < 97 ∧ xb * 16 ≤ x ∧
          x < xb * 16 + n
      · rw [if_pos hc, if_pos (by omega)]
      · rw [if_neg hc, if_neg (by omega)]

theorem writeRow_eff (s : Nat → Nat → Nat → Nat → Int) (zb xb vz : Nat)
    (g : Nat → Nat → Int) (z x : Nat) :
    writeRow s zb xb vz g z x =
      if z = zb * 16 + vz ∧ z < 97 ∧ x < 97 ∧ xb * 16 ≤ x ∧ x < xb * 16 + 17
      then s zb xb vz (x - xb * 16) else g z x :=
  writeRow_foldl_eff s zb xb vz 17 g z x

theorem writeBlock_foldl_eff (s : Nat → Nat → Nat → Nat → Int) (zb xb : Nat) :
    ∀ (n : Nat) (g : Nat → Nat → Int) (z x : Nat),
    ((List.range n).foldl (fun g vz => writeRow s zb xb vz g) g) z x =
      if zb * 16 ≤ z ∧ z < zb * 16 + n ∧ z < 97 ∧ x < 97 ∧ xb * 16 ≤ x ∧
          x < xb * 16 + 17
      then s zb xb (z - zb * 16) (x - xb * 16) else g z x := by
  intro n
  induction n with
  | zero =>
    intro g z x
    rw [List.range_zero, List.foldl_nil, if_neg (by omega)]
  | succ n ih =>
    intro g z x
    rw [foldl_range_succ]
    show writeRow s zb xb n
      ((List.range n).foldl (fun g vz => writeRow s zb xb vz g) g) z x = _
    rw [writeRow_eff]
    by_cases h1 : z = zb * 16 + n ∧ z < 97 ∧ x < 97 ∧ xb * 16 ≤ x ∧
        x < xb * 16 + 17
    · rw [if_pos h1, if_pos (by omega)]
      have hz : z - zb * 16 = n := by omega
      rw [hz]
    · rw [if_neg h1, ih g z x]
      by_cases hc : zb * 16 ≤ z ∧ z < zb * 16 + n ∧ z < 97 ∧ x < 97 ∧
          xb * 16 ≤ x ∧ x < xb * 16 + 17
      · rw [if_pos hc, if_pos (by omega)]
      · rw [if_neg hc, if_neg (by omega)]

theorem writeBlock_eff (s : Nat → Nat → Nat → Nat → Int) (zb xb : Nat)
    (g : Nat → Nat → Int) (z x : Nat) :
    writeBlock s zb xb g z x =
      if zb * 16 ≤ z ∧ z < zb * 16 + 17 ∧ z < 97 ∧ x < 97 ∧ xb * 16 ≤ x ∧
          x < xb * 16 + 17
      then s zb xb (z - zb * 16) (x - xb * 16) else g z x :=
  writeBlock_foldl_eff s zb xb 17 g z x

theorem writeBlockRow_foldl_eff (s : Nat → Nat → Nat → Nat → Int) (zb : Nat) :
    ∀ (n : Nat) (g : Nat → Nat → Int) (z x : Nat),
    ((List.range n).foldl (fun g xb => writeBlock s zb xb g) g) z x =
      if zb * 16 ≤ z ∧ z < zb * 16 + 17 ∧ z < 97 ∧ 0 < n ∧ x ≤ 16 * n ∧ x < 97
      then s zb (min (x / 16) (n - 1)) (z - zb * 16)
        (x - 16 * min (x / 16) (n - 1))
      else g z x := by
  intro n
  induction n with
  | zero =>
    intro g z x
    rw [List.range_zero, List.foldl_nil, if_neg (by omega)]
  | succ n ih =>
    intro g z x
    rw [foldl_range_succ]
    show writeBlock s zb n
      ((List.range n).foldl (fun g xb => writeBlock s zb xb g) g) z x = _
    rw [writeBlock_eff]
    by_cases h1 : zb * 16 ≤ z ∧ z < zb * 16 + 17 ∧ z < 97 ∧ x < 97 ∧
        n * 16 ≤ x ∧ x < n * 16 + 17
    · rw [if_pos h1, if_pos (by omega)]
      have e1 : min (x / 16) (n + 1 - 1) = n := by omega
      rw [e1]
      have e2 : x - n * 16 = x - 16 * n := by omega
      rw [e2]
    · rw [if_neg h1, ih g z x]
      by_cases hc : zb * 16 ≤ z ∧ z < zb * 16 + 17 ∧ z < 97 ∧ 0 < n ∧
          x ≤ 16 * n ∧ x < 97
      · rw [if_pos hc, if_pos (by omega)]
        have e1 : min (x / 16) (n - 1) = min (x / 16) (n + 1 - 1) := by omega
        rw [e1]
      · rw [if_neg hc, if_neg (by omega)]

theorem grid_foldl_eff (s : Nat → Nat → Nat → Nat → Int) :
    ∀ (n : Nat) (g : Nat → Nat → Int) (z x : Nat),
    ((List.range n).foldl (fun g zb => writeBlockRow s zb g) g) z x =
      if 0 < n ∧ z ≤ 16 * n ∧ z < 97 ∧ x < 97
      then s (min (z / 16) (n - 1)) (min (x / 16) 5)
        (z - 16 * min (z / 16) (n - 1)) (x - 16 * min (x / 16) 5)
      else g z x := by
  intro n
  induction n with
  | zero =>
    intro g z x
    rw [List.range_zero, List.foldl_nil, if_neg (by omega)]
  | succ n ih =>
    intro g z x
    rw [foldl_range_succ]
    show writeBlockRow s n
      ((List.range n).foldl (fun g zb => writeBlockRow s zb g) g) z x = _
    show (List.range 6).foldl (fun g xb => writeBlock s n xb g) _ z x = _
    rw [writeBlockRow_foldl_eff s n 6]
    by_cases h1 : n * 16 ≤ z ∧ z < n * 16 + 17 ∧ z < 97 ∧ 0 < 6 ∧
        x ≤ 16 * 6 ∧ x < 97
    · rw [if_pos h1, if_pos (by omega)]
      have e1 : min (z / 16) (n + 1 - 1) = n := by omega
      rw [e1]
      have e2 : min (x / 16) (6 - 1) = min (x / 16) 5 := by norm_num
      rw [e2]
      have e3 : z - n * 16 = z - 16 * n := by omega
      rw [e3]
    · rw [if_neg h1, ih g z x]
      by_cases hc : 0 < n ∧ z ≤ 16 * n ∧ z < 97 ∧ x < 97
      · rw [if_pos hc, if_pos (by omega)]
        have e1 : min (z / 16) (n - 1) = min (z / 16) (n + 1 - 1) := by omega
        rw [e1]
      · rw [if_neg hc, if_neg (by omega)]

theorem read_mapm_grid_eff (s : Nat → Nat → Nat → Nat → Int) (z x : Nat) :
    read_mapm_grid s z x =
      if z < 97 ∧ x < 97
      then s (min (z / 16) 5) (min (x / 16) 5) (z - 16 * min (z / 16) 5)
        (x - 16 * min (x / 16) 5)
      else 0 := by
  show ((List.range 6).foldl (fun g zb => writeBlockRow s zb g)
    (fun _ _ => 0)) z x = _
  rw [grid_foldl_eff s 6 (fun _ _ => 0) z x]
  by_cases h : z < 97 ∧ x < 97
  · rw [if_pos (by omega), if_pos h]
  · rw [if_neg (by omega), if_neg h]

/-- Claim C6: in the assembled 97×97 grid, block `b` at local index 16 and
block `b+1` at local index 0 land in the same global cell via
`globalIndex = blockIndex*16 + localIndex`; on a horizontal or vertical
boundary column/row the final grid value is the later-written block's
local-0 sample, and when the two blocks' boundary samples coincide in the
input stream the grid value equals both blocks' boundary samples (exact
sharing, no averaging). -/
theorem heightfield_boundary_sharing (s : Nat → Nat → Nat → Nat → Int) :
    (∀ b : Nat, b * 16 + 16 = (b + 1) * 16 + 0) ∧
    (∀ bx gz, bx < 5 → gz < 97 →
      read_mapm_grid s gz ((bx + 1) * 16) =
        s (min (gz / 16) 5) (bx + 1) (gz - 16 * min (gz / 16) 5) 0 ∧
      (s (min (gz / 16) 5) bx (gz - 16 * min (gz / 16) 5) 16 =
          s (min (gz / 16) 5) (bx + 1) (gz - 16 * min (gz / 16) 5) 0 →
        read_mapm_grid s gz ((bx + 1) * 16) =
          s (min (gz / 16) 5) bx (gz - 16 * min (gz / 16) 5) 16)) ∧
    (∀ bz gx, bz < 5 → gx < 97 →
      read_mapm_grid s ((bz + 1) * 16) gx =
        s (bz + 1) (min (gx / 16) 5) 0 (gx - 16 * min (gx / 16) 5) ∧
      (s bz (min (gx / 16) 5) 16 (gx - 16 * min (gx / 16) 5) =
          s (bz + 1) (min (gx / 16) 5) 0 (gx - 16 * min (gx / 16) 5) →
        read_mapm_grid s ((bz + 1) * 16) gx =
          s bz (min (gx / 16) 5) 16 (gx - 16 * min (gx / 16) 5))) := by
  refine ⟨fun b => by ring, ?_, ?_⟩
  · intro bx gz hbx hgz
    have hmain : read_mapm_grid s gz ((bx + 1) * 16) =
        s (min (gz / 16) 5) (bx + 1) (gz - 16 * min (gz / 16) 5) 0 := by
      rw [read_mapm_grid_eff]
      rw [if_pos (by omega)]
      have e1 : min ((bx + 1) * 16 / 16) 5 = bx + 1 := by omega
      rw [e1]
      have e2 : (bx + 1) * 16 - 16 * (bx + 1) = 0 := by omega
      rw [e2]
    exact ⟨hmain, fun heq => by rw [hmain, ← heq]⟩
  · intro bz gx hbz hgx
    have hmain : read_mapm_grid s ((bz + 1) * 16) gx =
        s (bz + 1) (min (gx / 16) 5) 0 (gx - 16 * min (gx / 16) 5) := by
      rw [read_mapm_grid_eff]
      rw [if_pos (by omega)]
      have e1 : min ((bz + 1) * 16 / 16) 5 = bz + 1 := by omega
      rw [e1]
      have e2 : (bz + 1) * 16 - 16 * (bz + 1) = 0 := by omega
      rw [e2]
    exact ⟨hmain, fun heq => by rw [hmain, ← heq]⟩

/-- Witness for `heightfield_boundary_sharing`: the shared cell
`(20, 32)` on the boundary between blocks `(1, 1)` and `(1, 2)` of the
concrete sample stream `sampleWit`. -/
theorem heightfield_boundary_sharing_witness :
    read_mapm_grid sampleWit 20 32 = sampleWit 1 1 4 16 := by
  have h := ((heightfield_boundary_sharing sampleWit).2.1 1 20
    (by decide) (by decide)).2 (by decide)
  exact h

theorem getD_fileRead (buf : List Nat) (pos n i d : Nat) (hi : i < n) :
    (fileRead buf pos n).getD i d = buf.getD (pos + i) d := by
  rw [List.getD_eq_getElem?_getD, List.getD_eq_getElem?_getD]
  unfold fileRead
  rw [List.getElem?_take, if_pos hi, List.getElem?_drop]

theorem fileRead_drop_two (buf : List Nat) (pos : Nat) :
    (fileRead buf pos 6).drop 2 = fileRead buf (pos + 2) 4 := by
  unfold fileRead
  rw [List.drop_take, List.drop_drop]

set_option maxRecDepth 100000 in
/-- Claim C7 counterexample: on a concrete 546-byte sub-block trailer whose
first byte encodes water-type 3 and whose bytes beyond the water descriptor
are all `0xFF`, the code's parse records a water descriptor of type 3 read
from the very first trailer byte, whereas the claimed skip-first order
would read the signed water type from a `0xFF` byte (value -1) after the
16×16 table and record nothing: the decoder does not skip the flags and
the 16×16 secondary table before reading the water descriptor. -/
theorem water_descriptor_order_counterexample :
    blockWaterOfTrailer 0 0 waterTrailerBytes 0 = some [(0, 0, 0, 3, 1)] ∧
    blockWaterClaimOrder 0 0 waterTrailerBytes 0 = some [] :=
  ⟨rfl, rfl⟩

/-- Claim C7 (amended): after the 17×17 sample grid of a sub-block the
decoder immediately reads the water descriptor — int8 water-type at the
first trailer byte, uint8 wave-variant at the second, float32
water-plane-height in the next four — and only then skips the 16×16
secondary unused table (512 bytes) and 28 further unused bytes, consuming
546 trailer bytes in total; a WaterBlockDescriptor `(xb, zb, height, type,
wave)` is recorded for the sub-block iff the signed water-type is ≥ 0. -/
theorem mapm_block_trailer_layout (buf : List Nat) (pos : Nat)
    (h : pos + 546 ≤ buf.length) :
    parseBlockTrailer buf pos =
      some ((int8OfByte (buf.getD pos 0), buf.getD (pos + 1) 0,
        fromBytesLE (fileRead buf (pos + 2) 4)), pos + 546) ∧
    (∀ (xb zb wv wh : Nat) (wt : Int),
      blockWaterRecords xb zb wt wv wh = [(xb, zb, wh, wt, wv)] ↔ 0 ≤ wt) := by
  constructor
  · have hlen6 : (fileRead buf pos 6).length = 6 := by
      simp only [fileRead, List.length_take, List.length_drop]
      omega
    have l1 : (fileRead buf (pos + 6) 512).length = 512 := by
      simp only [fileRead, List.length_take, List.length_drop]
      omega
    have hg0 : (fileRead buf pos 6).getD 0 0 = buf.getD pos 0 := by
      rw [getD_fileRead buf pos 6 0 0 (by omega)]
      norm_num
    have hg1 : (fileRead buf pos 6).getD 1 0 = buf.getD (pos + 1) 0 :=
      getD_fileRead buf pos 6 1 0 (by omega)
    simp only [parseBlockTrailer]
    rw [if_pos hlen6, l1]
    have l2 : (fileRead buf (pos + 6 + 512) 28).length = 28 := by
      simp only [fileRead, List.length_take, List.length_drop]
      omega
    rw [l2, hg0, hg1, fileRead_drop_two]
  · intro xb zb wv wh wt
    constructor
    · intro he
      simp only [blockWaterRecords] at he
      split at he
      · next hp => exact hp
      · exact absurd he (by simp)
    · intro hp
      simp only [blockWaterRecords, if_pos hp]

/-- Witness for `mapm_block_trailer_layout` on a 546-byte all-zero
trailer. -/
theorem mapm_block_trailer_layout_witness :
    parseBlockTrailer (List.replicate 546 0) 0 =
      some ((int8OfByte ((List.replicate 546 0).getD 0 0),
        (List.replicate 546 0).getD (0 + 1) 0,
        fromBytesLE (fileRead (List.replicate 546 0) (0 + 2) 4)), 0 + 546) :=
  (mapm_block_trailer_layout (List.replicate 546 0) 0
    (by rw [List.length_replicate])).1
